import Mathlib

/-!
# Verification of the PoE2ChatNotifier core pipeline

A shallow embedding of `src/PoE2ChatNotifier.py`: the line parser
(`extract_timestamp`, `extract_message`, `parse_message`), the per-line
processing path (`process_line`), the bounded history buffer
(`deque(maxlen=...)` appended to by `on_log_line`), and the thread-pool
dispatch of `monitor_file` (a small-step scheduler over a pool of four
workers), together with theorems settling the specification's claims.

Strings are modelled as `List Char`; the Python string operations used by
the source (`find`, `rfind`, slicing with negative indices, `strip`,
`lstrip`, `split(sep, 1)`, `startswith`, `in`) are reproduced with Python
semantics.
-/

set_option autoImplicit false

namespace ChatNotifier

/-- Convert a string literal to the `List Char` representation used
throughout the model. -/
def str (s : String) : List Char := s.data

/-- Python `str.isspace` on the characters `str.strip()` removes. -/
def pyIsSpace (c : Char) : Bool :=
  c = ' ' || c = '\t' || c = '\n' || c = '\r' || c = '\x0b' || c = '\x0c'

/-- Remove leading whitespace (the left half of Python `str.strip()`). -/
def trimL (l : List Char) : List Char := l.dropWhile pyIsSpace

/-- Remove trailing whitespace (the right half of Python `str.strip()`). -/
def trimR : List Char → List Char
  | [] => []
  | c :: rest =>
    if (trimR rest).isEmpty && pyIsSpace c then [] else c :: trimR rest

/-- Python `str.strip()`: remove leading and trailing whitespace. -/
def pyStrip (l : List Char) : List Char := trimR (trimL l)

/-- Python `str.lstrip(chars)`: remove every leading character that is a
member of `chars` (a character-set strip, not a prefix strip). -/
def pyLstrip (chars l : List Char) : List Char :=
  l.dropWhile (fun c => chars.contains c)

/-- Index of the first occurrence of `pat` as a contiguous substring of the
list, if any (the positive side of Python `str.find`). -/
def findSub (pat : List Char) : List Char → Option Nat
  | [] => if pat.isPrefixOf ([] : List Char) then some 0 else none
  | c :: rest =>
    if pat.isPrefixOf (c :: rest) then some 0
    else (findSub pat rest).map (· + 1)

/-- Index of the last occurrence of `pat` as a contiguous substring of the
list, if any (the positive side of Python `str.rfind`). -/
def rfindSub (pat : List Char) : List Char → Option Nat
  | [] => if pat.isPrefixOf ([] : List Char) then some 0 else none
  | c :: rest =>
    match rfindSub pat rest with
    | some j => some (j + 1)
    | none => if pat.isPrefixOf (c :: rest) then some 0 else none

/-- Python `str.find(pat)`: first index of `pat`, or `-1`. -/
def pyFindI (pat l : List Char) : Int :=
  match findSub pat l with
  | some i => (i : Int)
  | none => -1

/-- Python `str.find(pat, start)`: first index of `pat` at or after
`start`, or `-1`. -/
def pyFindFromI (pat l : List Char) (start : Nat) : Int :=
  match findSub pat (l.drop start) with
  | some i => ((i + start : Nat) : Int)
  | none => -1

/-- Python `str.rfind(pat)`: last index of `pat`, or `-1`. -/
def pyRfindI (pat l : List Char) : Int :=
  match rfindSub pat l with
  | some i => (i : Int)
  | none => -1

/-- Normalize a Python slice bound: negative indices count from the end,
and the result is clamped into `[0, n]`. -/
def pyIdx (n : Nat) (i : Int) : Nat :=
  if i < 0 then ((n : Int) + i).toNat else min i.toNat n

/-- Python slicing `l[a:b]` with full negative-index and clamping
semantics. -/
def pySlice (l : List Char) (a b : Int) : List Char :=
  (l.take (pyIdx l.length b)).drop (pyIdx l.length a)

/-- Python `s.split(sep, 1)`: the part before the first occurrence of the
separator character and the part after it.  When the separator does not
occur the whole list is returned as the first component (the source only
calls this after checking membership). -/
def splitFirst : List Char → Char → List Char × List Char
  | [], _ => ([], [])
  | c :: rest, sep =>
    if c = sep then ([], rest)
    else ((c :: (splitFirst rest sep).1), (splitFirst rest sep).2)

/-- The chat categories assigned by `parse_message`. -/
inductive Category where
  | Local | Global | Party | Whisper | Trade | Guild | System
deriving DecidableEq

/-- The fields returned by `parse_message`
(`channel, username, content, category`); `username` is `none` exactly
when the source returns Python `None`. -/
structure ChatEvent where
  channel : List Char
  username : Option (List Char)
  content : List Char
  category : Category
deriving DecidableEq

/-- The `elif` chain of `parse_message` (source lines 804-834): detect the
channel marker and category from the raw message body. -/
def detectChannel (message : List Char) : List Char × Category :=
  if (str "##").isPrefixOf message then (str "#", .Global)
  else if (str "$$").isPrefixOf message then (str "$", .Trade)
  else if (str "#").isPrefixOf message then (str "#", .Global)
  else if (str "$").isPrefixOf message then (str "$", .Trade)
  else if (str "&").isPrefixOf message then (str "&", .Guild)
  else if (str "%").isPrefixOf message then (str "%", .Party)
  else if (str "@From ").isPrefixOf message then (str "@From ", .Whisper)
  else if (str "@To ").isPrefixOf message then (str "@To ", .Whisper)
  else if (str "System:").isPrefixOf message then (str "System", .System)
  else ([], .Local)

/-- The username computation of `parse_message` (source lines 836-844):
`None` for System, `username_part[len(channel):].strip()` for Whisper, and
`username_part.lstrip(channel).strip()` for every other category. -/
def computeUsername (channel : List Char) (category : Category)
    (username_part : List Char) : Option (List Char) :=
  match category with
  | .System => none
  | .Whisper => some (pyStrip (username_part.drop channel.length))
  | _ => some (pyStrip (pyLstrip channel username_part))

/-- `parse_message` (source lines 787-846): `None` when the body has no
`:`; otherwise split on the first `:`, detect the channel marker, and
build `(channel, username, content, category)`. -/
def parse_message (message : List Char) : Option ChatEvent :=
  if message.contains ':' then
    some ⟨(detectChannel message).1,
          computeUsername (detectChannel message).1 (detectChannel message).2
            (pyStrip (splitFirst message ':').1),
          pyStrip (splitFirst message ':').2,
          (detectChannel message).2⟩
  else none

/-- `extract_timestamp` (source lines 753-765):
`line[line.find(" ")+1 : line.find(" ", start)][:5]`. -/
def extract_timestamp (l : List Char) : List Char :=
  pySlice (pySlice l ((pyFindI (str " ") l + 1).toNat : Nat)
      (pyFindFromI (str " ") l (pyFindI (str " ") l + 1).toNat)) 0 5

/-- `extract_message` (source lines 767-778):
`line[line.rfind("] ")+2:].strip()`. -/
def extract_message (l : List Char) : List Char :=
  pyStrip (l.drop (pyRfindI (str "] ") l + 2).toNat)

/-- The external configuration consumed by `process_line`
(`config["ignored_users"]` and `config["enable_whisper_notifications"]`). -/
structure Config where
  ignoredUsers : List (List Char)
  enableWhisperNotifications : Bool
deriving DecidableEq

/-- The ignore test of `process_line` line 732 and `display_messages`
line 674: `username and username in self.config["ignored_users"]` — a
Python-truthiness guard (`None` and the empty string are falsy) followed
by exact list membership. -/
def isIgnoredPy (username : Option (List Char))
    (ignored : List (List Char)) : Bool :=
  match username with
  | none => false
  | some s => !s.isEmpty && ignored.contains s

/-- The whisper-notification condition of `process_line` line 736:
`category == "Whisper" and channel.strip().startswith("@From")`. -/
def whisperFrom (ev : ChatEvent) : Bool :=
  if ev.category = .Whisper then (str "@From").isPrefixOf (pyStrip ev.channel)
  else false

/-- A message sent across the Qt signal bus: `signals.log_line.emit`
carries `(content, timestamp, channel, username, category)` and
`signals.system_line.emit` carries `(msg, color)`. -/
inductive BusMsg where
  | logLine (content timestamp channel : List Char)
      (username : Option (List Char)) (category : Category)
  | systemLine (msg color : List Char)
deriving DecidableEq

/-- The observable outcome of one `process_line` call: the bus messages it
emits, the amount added to `self.unread_whispers`, and whether
`self.executor.submit(self.play_notify)` was reached. -/
structure ProcResult where
  emissions : List BusMsg
  unreadDelta : Nat
  soundFired : Bool
deriving DecidableEq

/-- `process_line` (source lines 716-751): extract timestamp and body,
parse; drop silently on parse failure or an ignored username; count and
possibly notify on incoming whispers; emit the `log_line` signal. -/
def process_line (cfg : Config) (line : List Char) : ProcResult :=
  match parse_message (extract_message line) with
  | none => ⟨[], 0, false⟩
  | some ev =>
    if isIgnoredPy ev.username cfg.ignoredUsers then ⟨[], 0, false⟩
    else
      ⟨[BusMsg.logLine ev.content (extract_timestamp line) ev.channel
          ev.username ev.category],
       if whisperFrom ev then 1 else 0,
       whisperFrom ev && cfg.enableWhisperNotifications⟩

/-- One append to `self.messages = deque(maxlen=C)` (source line 269,
appended to at lines 612 and 625): when the new length would exceed the
capacity, the oldest (leftmost) entry is evicted. -/
def appendBounded {α : Type} (C : Nat) (buf : List α) (x : α) : List α :=
  if (buf ++ [x]).length > C then (buf ++ [x]).drop ((buf ++ [x]).length - C)
  else buf ++ [x]

/-- An entry of `self.messages`: `on_log_line` stores
`(content, timestamp, channel, username, category)` and `on_system_line`
stores `(msg, None, None, None, "System")`. -/
structure HistEntry where
  content : List Char
  timestamp : Option (List Char)
  channel : Option (List Char)
  username : Option (List Char)
  category : Option Category
deriving DecidableEq

/-- How the consumer turns a bus message into a history entry
(`on_log_line` line 612 / `on_system_line` line 625). -/
def entryOfMsg : BusMsg → HistEntry
  | .logLine c t ch u cat => ⟨c, some t, some ch, u, some cat⟩
  | .systemLine m _ => ⟨m, none, none, none, some .System⟩

/-- The consumer side: fold a stream of bus messages into the bounded
history deque. -/
def consume (C : Nat) (msgs : List BusMsg) : List HistEntry :=
  msgs.foldl (fun buf m => appendBounded C buf (entryOfMsg m)) []

/-- A unit of work submitted by `monitor_file` line 710: the file position
of the line and its text. -/
abbrev LineTask := Nat × List Char

/-- The state of the `ThreadPoolExecutor(max_workers=4)` dispatch:
submitted-but-not-started tasks in submission (file) order, tasks
currently held by a worker, and completed tasks in completion order —
which is the order their `log_line` emissions reach the Qt event queue
and hence the consumer. -/
structure ExecState where
  waiting : List LineTask
  running : List LineTask
  finished : List LineTask
deriving DecidableEq

/-- One scheduler step of the pool: a free worker picks up the next
submitted task (tasks start in submission order, at most `w` in flight),
or any in-flight task completes and emits. -/
inductive ExecStep (w : Nat) : ExecState → ExecState → Prop where
  | start (s s2 : ExecState) (t : LineTask) (rest : List LineTask) :
      s.waiting = t :: rest → s.running.length < w →
      s2 = ⟨rest, s.running ++ [t], s.finished⟩ → ExecStep w s s2
  | finish (s s2 : ExecState) (t : LineTask) :
      t ∈ s.running →
      s2 = ⟨s.waiting, s.running.erase t, s.finished ++ [t]⟩ → ExecStep w s s2

/-- The initial scheduler state for a list of appended lines: all tasks
submitted in file order, none running, none finished. -/
def initState (lines : List (List Char)) : ExecState :=
  ⟨lines.enum, [], []⟩

/-- A scheduler state reachable from the initial dispatch of `lines` over
a pool of `w` workers. -/
def Reachable (w : Nat) (lines : List (List Char)) (s : ExecState) : Prop :=
  Relation.ReflTransGen (ExecStep w) (initState lines) s

/-- The stream the single consumer observes: the emissions of the
completed tasks, in completion order. -/
def observed (cfg : Config) (s : ExecState) : List BusMsg :=
  (s.finished.map (fun t => (process_line cfg t.2).emissions)).flatten

/-- `play_notify` (source lines 780-785): `playsound(self.notify_path)` is
invoked with the path only — the `playsound` call in the source takes no
volume argument, so the invocation record carries `volume = none`. -/
structure SoundInvocation where
  path : List Char
  volume : Option Nat
deriving DecidableEq

/-- `play_notify` (source lines 780-785): if the notification file exists,
invoke the player on the path; nothing else is passed. -/
def play_notify (fileExists : Bool) (notifyPath : List Char) :
    Option SoundInvocation :=
  if fileExists then some ⟨notifyPath, none⟩ else none

/-- The notification invocation as the specification words it: a
configured volume `0-100` mapped linearly onto the player's native range
`0..playerMax` and clamped to that range before invocation.  Stated for
comparison with the source-derived `play_notify`. -/
def play_notify_specced (fileExists : Bool) (notifyPath : List Char)
    (volume : Nat) (playerMax : Nat) : Option SoundInvocation :=
  if fileExists then
    some ⟨notifyPath, some (min (volume * playerMax / 100) playerMax)⟩
  else none

/-- The claim's reading of speaker extraction for the marker categories:
strip the leading run of characters equal to the detected marker from the
raw speaker part, then trim whitespace. -/
def speakerPerSpec (marker rawPart : List Char) : List Char :=
  pyStrip (rawPart.dropWhile (fun c => marker.contains c))

/-- `pat` occurs as a contiguous substring of `l` at position `i`. -/
def occursAt (pat l : List Char) (i : Nat) : Prop :=
  pat.isPrefixOf (l.drop i) = true

instance (pat l : List Char) (i : Nat) : Decidable (occursAt pat l i) := by
  unfold occursAt
  infer_instance

/-! ## The history deque -/

lemma foldl_appendBounded {α : Type} (C : Nat) (evs : List α) :
    ∀ buf : List α, buf.length ≤ C →
      evs.foldl (appendBounded C) buf =
        (buf ++ evs).drop (buf.length + evs.length - C) := by
  induction evs with
  | nil =>
    intro buf h
    simp [Nat.sub_eq_zero_of_le h]
  | cons x rest ih =>
    intro buf h
    have hlx : (buf ++ [x]).length = buf.length + 1 := by simp
    rw [List.foldl_cons]
    by_cases hfull : (buf ++ [x]).length > C
    · have hlen : buf.length = C := by omega
      have harg : (buf ++ [x]).length - C = 1 := by omega
      have hstep : appendBounded C buf x = (buf ++ [x]).drop 1 := by
        unfold appendBounded
        rw [if_pos hfull, harg]
      have hd1 : ((buf ++ [x]).drop 1).length = C := by
        rw [List.length_drop, hlx, hlen]
        omega
      have hidx : C + rest.length - C = rest.length := by omega
      have h2 : buf.length + (x :: rest).length - C = rest.length + 1 := by
        rw [List.length_cons, hlen]
        omega
      have h3 : buf ++ x :: rest = (buf ++ [x]) ++ rest := by simp
      have h6 : ((buf ++ [x]) ++ rest).drop 1 = (buf ++ [x]).drop 1 ++ rest := by
        rw [List.drop_append_eq_append_drop]
        have h7 : 1 - (buf ++ [x]).length = 0 := by omega
        rw [h7, List.drop_zero]
      rw [hstep, ih _ (le_of_eq hd1), hd1, hidx, h2, h3]
      calc ((buf ++ [x]).drop 1 ++ rest).drop rest.length
          = (((buf ++ [x]) ++ rest).drop 1).drop rest.length := by rw [h6]
        _ = ((buf ++ [x]) ++ rest).drop (rest.length + 1) := by
            rw [List.drop_drop, Nat.add_comm 1 rest.length]
    · have hle : (buf ++ [x]).length ≤ C := by omega
      have hstep : appendBounded C buf x = buf ++ [x] := by
        unfold appendBounded
        rw [if_neg hfull]
      rw [hstep, ih _ hle]
      have h2 : (buf ++ [x]).length + rest.length - C =
          buf.length + (x :: rest).length - C := by
        rw [hlx, List.length_cons]
        omega
      have h3 : (buf ++ [x]) ++ rest = buf ++ x :: rest := by simp
      rw [h2, h3]

/-- C2.  The history buffer is a strict FIFO of capacity `C`: the length
never exceeds `C` after any sequence of appends starting from a buffer
within capacity, appending `C + 1` events from empty leaves exactly the
last `C` events in their original relative order (the first-appended event
is evicted), and an event equal to none of the survivors is absent. -/
theorem history_buffer_fifo (C : Nat) :
    (∀ (buf evs : List HistEntry), buf.length ≤ C →
      (evs.foldl (appendBounded C) buf).length ≤ C)
  ∧ (∀ evs : List HistEntry, evs.length = C + 1 →
      evs.foldl (appendBounded C) [] = evs.drop 1)
  ∧ (∀ (evs : List HistEntry) (e : HistEntry), evs.length = C + 1 →
      evs.head? = some e → e ∉ evs.tail →
      e ∉ evs.foldl (appendBounded C) []) := by
  refine ⟨?_, ?_, ?_⟩
  · intro buf evs h
    rw [foldl_appendBounded C evs buf h, List.length_drop]
    simp only [List.length_append]
    omega
  · intro evs h
    rw [foldl_appendBounded C evs [] (by simp)]
    simp [h]
  · intro evs e hlen _ htail
    rw [foldl_appendBounded C evs [] (by simp)]
    simp only [List.nil_append, List.length_nil, Nat.zero_add, hlen,
      Nat.add_sub_cancel_left, List.drop_one]
    exact htail

/-- Witness for `history_buffer_fifo` at `C = 2` with three distinct
events: the final buffer is the last two events and the first is gone. -/
theorem history_buffer_fifo_witness :
    ([⟨str "a", none, none, none, none⟩, ⟨str "b", none, none, none, none⟩,
        ⟨str "c", none, none, none, none⟩] : List HistEntry).foldl
        (appendBounded 2) [] =
      ([⟨str "a", none, none, none, none⟩, ⟨str "b", none, none, none, none⟩,
        ⟨str "c", none, none, none, none⟩] : List HistEntry).drop 1 ∧
    (⟨str "a", none, none, none, none⟩ : HistEntry) ∉
      ([⟨str "a", none, none, none, none⟩, ⟨str "b", none, none, none, none⟩,
        ⟨str "c", none, none, none, none⟩] : List HistEntry).foldl
        (appendBounded 2) [] :=
  ⟨(history_buffer_fifo 2).2.1 _ (by decide),
   (history_buffer_fifo 2).2.2 _ _ (by decide) (by decide) (by decide)⟩

/-! ## Unparseable lines -/

/-- C6.  A message body with no `:` parses to `none`, and a line whose
extracted body has no `:` is silently dropped by `process_line`: no bus
emission of any kind (neither a chat event nor a diagnostic), no unread
increment, no sound. -/
theorem no_colon_dropped :
    (∀ message : List Char, message.contains ':' = false →
      parse_message message = none)
  ∧ (∀ (cfg : Config) (line : List Char),
      (extract_message line).contains ':' = false →
      process_line cfg line = ⟨[], 0, false⟩) := by
  have h1 : ∀ message : List Char, message.contains ':' = false →
      parse_message message = none := by
    intro message h
    unfold parse_message
    rw [h]
    simp
  refine ⟨h1, ?_⟩
  intro cfg line h
  unfold process_line
  rw [h1 _ h]

/-- Witness for `no_colon_dropped` on a concrete colon-free line. -/
theorem no_colon_dropped_witness :
    parse_message (str "hello world") = none ∧
    process_line ⟨[], true⟩ (str "no colon here") = ⟨[], 0, false⟩ :=
  ⟨no_colon_dropped.1 _ (by decide), no_colon_dropped.2 _ _ (by decide)⟩

/-! ## The whisper notifier -/

/-- C3.  For an admitted (non-ignored) parsed event: an incoming Whisper
(channel `@From `) with whisper notifications disabled increments the
unread-whispers counter by one and never reaches the play-sound submit;
an outgoing Whisper (channel `@To `) never increments the counter and
never reaches the play-sound submit. -/
theorem whisper_notifier :
    ∀ (cfg : Config) (line : List Char) (ev : ChatEvent),
      parse_message (extract_message line) = some ev →
      isIgnoredPy ev.username cfg.ignoredUsers = false →
      ((ev.category = .Whisper → ev.channel = str "@From " →
          cfg.enableWhisperNotifications = false →
          (process_line cfg line).unreadDelta = 1 ∧
          (process_line cfg line).soundFired = false)
       ∧ (ev.category = .Whisper → ev.channel = str "@To " →
          (process_line cfg line).unreadDelta = 0 ∧
          (process_line cfg line).soundFired = false)) := by
  intro cfg line ev hp hig
  constructor
  · intro hcat hch hen
    simp [process_line, hp, hig, whisperFrom, hcat, hch, hen]
    decide
  · intro hcat hch
    have hwf : whisperFrom ev = false := by
      simp [whisperFrom, hcat, hch]
      decide
    simp [process_line, hp, hig, hwf]

/-- Witness for `whisper_notifier`: a concrete incoming whisper with
notifications disabled counts without sounding, and a concrete outgoing
whisper neither counts nor sounds. -/
theorem whisper_notifier_witness :
    (process_line ⟨[], false⟩
        (str "2024/12/25 00:01:02 462 [INFO Client 456] @From Alice: hi")).unreadDelta = 1 ∧
    (process_line ⟨[], false⟩
        (str "2024/12/25 00:01:02 462 [INFO Client 456] @From Alice: hi")).soundFired = false ∧
    (process_line ⟨[], false⟩
        (str "2024/12/25 00:01:02 462 [INFO Client 456] @To Alice: hi")).unreadDelta = 0 ∧
    (process_line ⟨[], false⟩
        (str "2024/12/25 00:01:02 462 [INFO Client 456] @To Alice: hi")).soundFired = false := by
  have h1 := (whisper_notifier ⟨[], false⟩
      (str "2024/12/25 00:01:02 462 [INFO Client 456] @From Alice: hi")
      ⟨str "@From ", some (str "Alice"), str "hi", .Whisper⟩
      (by decide) (by decide)).1 rfl rfl rfl
  have h2 := (whisper_notifier ⟨[], false⟩
      (str "2024/12/25 00:01:02 462 [INFO Client 456] @To Alice: hi")
      ⟨str "@To ", some (str "Alice"), str "hi", .Whisper⟩
      (by decide) (by decide)).2 rfl rfl
  exact ⟨h1.1, h1.2, h2.1, h2.2⟩

/-! ## System events -/

/-- C4, counterexample.  Classifying the body `"System: disconnected"`
yields `channel = "System"` — a present, non-empty channel value — so
System events do not carry an absent channel marker. -/
theorem system_marker_counterexample :
    (parse_message (str "System: disconnected")).map ChatEvent.channel =
      some (str "System") ∧ str "System" ≠ ([] : List Char) := by
  decide

/-- C4, amended.  Every body starting with `"System:"` classifies to
category System with speaker absent, content the trimmed remainder, and
channel equal to the literal string `"System"` (present, not a marker
symbol and not absent); and every System-category event produced by the
classifier has speaker absent and channel `"System"`. -/
theorem system_events_channel :
    (∀ message : List Char, (str "System:").isPrefixOf message = true →
      parse_message message =
        some ⟨str "System", none, pyStrip (message.drop 7), .System⟩)
  ∧ (∀ (message : List Char) (ev : ChatEvent),
      parse_message message = some ev → ev.category = .System →
      ev.username = none ∧ ev.channel = str "System") := by
  constructor
  · intro message h
    obtain ⟨rest, hrest⟩ := (List.isPrefixOf_iff_prefix.mp h)
    subst hrest
    simp [parse_message, detectChannel, computeUsername, str, splitFirst,
      List.isPrefixOf]
  · intro message ev hp hcat
    unfold parse_message at hp
    split at hp
    · unfold detectChannel at hp
      split_ifs at hp <;> cases hp <;> simp_all [computeUsername]
    · cases hp

/-- Witness for `system_events_channel` on `"System: disconnected"`. -/
theorem system_events_channel_witness :
    parse_message (str "System: disconnected") =
      some ⟨str "System", none,
        pyStrip ((str "System: disconnected").drop 7), .System⟩ ∧
    ((⟨str "System", none, str "disconnected", .System⟩ : ChatEvent).username =
        none ∧
      (⟨str "System", none, str "disconnected", .System⟩ : ChatEvent).channel =
        str "System") :=
  ⟨system_events_channel.1 _ (by decide),
   system_events_channel.2 (str "System: disconnected") _ (by decide) rfl⟩

/-! ## The ignore filter -/

/-- C5, counterexample.  An empty-string speaker that is a member of the
configured ignore set is not treated as ignored: Python's
`username and username in ...` is falsy on the empty string, so the
predicate is not `true` exactly on members. -/
theorem ignore_empty_speaker_counterexample :
    isIgnoredPy (some []) [[]] = false ∧ ([] : List Char) ∈ [([] : List Char)] := by
  decide

lemma mem_appendBounded {α : Type} (C : Nat) (buf : List α) (x e : α)
    (h : e ∈ appendBounded C buf x) : e ∈ buf ∨ e = x := by
  unfold appendBounded at h
  split at h
  · have h2 : e ∈ buf ++ [x] := List.mem_of_mem_drop h
    simpa using h2
  · simpa using h

lemma consume_invariant (P : HistEntry → Prop) (C : Nat) (msgs : List BusMsg)
    (h : ∀ m ∈ msgs, P (entryOfMsg m)) : ∀ e ∈ consume C msgs, P e := by
  suffices hgen : ∀ (ms : List BusMsg) (buf : List HistEntry),
      (∀ e ∈ buf, P e) → (∀ m ∈ ms, P (entryOfMsg m)) →
      ∀ e ∈ ms.foldl (fun b m => appendBounded C b (entryOfMsg m)) buf, P e by
    exact hgen msgs [] (by simp) h
  intro ms
  induction ms with
  | nil => intro buf hbuf _ e he; exact hbuf e he
  | cons m rest ih =>
    intro buf hbuf hms e he
    rw [List.foldl_cons] at he
    refine ih _ ?_ (fun m2 hm2 => hms m2 (List.mem_cons_of_mem _ hm2)) e he
    intro e2 he2
    rcases mem_appendBounded C buf (entryOfMsg m) e2 he2 with h1 | h1
    · exact hbuf e2 h1
    · rw [h1]; exact hms m (List.mem_cons_self _ _)

lemma process_line_emission_not_ignored (cfg : Config) (l : List Char)
    (m : BusMsg) (h : m ∈ (process_line cfg l).emissions) :
    isIgnoredPy (entryOfMsg m).username cfg.ignoredUsers = false := by
  unfold process_line at h
  split at h
  · cases h
  · rename_i ev _
    split at h
    · cases h
    · rename_i hig
      simp only [List.mem_singleton] at h
      rw [h]
      simpa using hig

/-- C5, amended.  The ignore predicate returns false when the speaker is
absent; for a present non-empty speaker it is true exactly on
case-sensitive exact members of the configured ignore set (the empty
string is never ignored, being Python-falsy); a line whose parsed speaker
is ignored is dropped entirely by `process_line` — no emission, no unread
increment, no sound; and no entry of the consumed history buffer ever has
an ignored speaker. -/
theorem ignore_filter :
    (∀ ig : List (List Char), isIgnoredPy none ig = false)
  ∧ (∀ (s : List Char) (ig : List (List Char)), s ≠ [] →
      (isIgnoredPy (some s) ig = true ↔ s ∈ ig))
  ∧ (∀ (cfg : Config) (line : List Char) (ev : ChatEvent),
      parse_message (extract_message line) = some ev →
      isIgnoredPy ev.username cfg.ignoredUsers = true →
      process_line cfg line = ⟨[], 0, false⟩)
  ∧ (∀ (cfg : Config) (C : Nat) (lines : List (List Char)) (e : HistEntry),
      e ∈ consume C
        ((lines.map (fun l => (process_line cfg l).emissions)).flatten) →
      isIgnoredPy e.username cfg.ignoredUsers = false) := by
  refine ⟨fun _ => rfl, ?_, ?_, ?_⟩
  · intro s ig hs
    simp [isIgnoredPy, hs]
  · intro cfg line ev hp hig
    simp [process_line, hp, hig]
  · intro cfg C lines e he
    refine consume_invariant
      (fun e2 => isIgnoredPy e2.username cfg.ignoredUsers = false) C _ ?_ e he
    intro m hm
    rw [List.mem_flatten] at hm
    obtain ⟨ems, hems, hmem⟩ := hm
    rw [List.mem_map] at hems
    obtain ⟨l, _, hl⟩ := hems
    exact process_line_emission_not_ignored cfg l m (hl ▸ hmem)

/-- Witness for `ignore_filter`: a named speaker is ignored exactly on
membership, a line from a concretely ignored speaker is dropped whole,
and a concrete consumed buffer holds only non-ignored entries. -/
theorem ignore_filter_witness :
    isIgnoredPy none [] = false ∧
    (isIgnoredPy (some (str "Bob")) [str "Bob"] = true ↔
      str "Bob" ∈ [str "Bob"]) ∧
    process_line ⟨[str "Alice"], true⟩
      (str "2024/12/25 00:01:02 462 [INFO Client 456] @From Alice: hi") =
      ⟨[], 0, false⟩ ∧
    isIgnoredPy (⟨str "hi", some (str "Bob:"), some [], some (str "Bob"),
        some .Local⟩ : HistEntry).username [str "Alice"] = false :=
  ⟨ignore_filter.1 [],
   ignore_filter.2.1 _ _ (by decide),
   ignore_filter.2.2.1 _ _ ⟨str "@From ", some (str "Alice"), str "hi",
      .Whisper⟩ (by decide) (by decide),
   ignore_filter.2.2.2 ⟨[str "Alice"], true⟩ 10 [str "a] Bob: hi"] _
      (by decide)⟩

/-! ## Message-body extraction -/

lemma occursAt_succ_cons (pat : List Char) (c : Char) (rest : List Char)
    (j : Nat) : occursAt pat (c :: rest) (j + 1) ↔ occursAt pat rest j := by
  unfold occursAt
  rw [List.drop_succ_cons]

lemma rfindSub_spec (pat : List Char) (hpat : pat ≠ []) :
    ∀ l : List Char,
      (rfindSub pat l = none → ∀ i, ¬ occursAt pat l i)
    ∧ (∀ i, rfindSub pat l = some i →
        occursAt pat l i ∧ ∀ j, occursAt pat l j → j ≤ i) := by
  have hp0 : pat.isPrefixOf ([] : List Char) = false := by
    rw [Bool.eq_false_iff]
    intro hc
    exact hpat (List.prefix_nil.mp (List.isPrefixOf_iff_prefix.mp hc))
  intro l
  induction l with
  | nil =>
    constructor
    · intro _ i hocc
      unfold occursAt at hocc
      rw [List.drop_nil] at hocc
      exact hpat (List.prefix_nil.mp (List.isPrefixOf_iff_prefix.mp hocc))
    · intro i h
      unfold rfindSub at h
      rw [hp0] at h
      cases h
  | cons c rest ih =>
    constructor
    · intro h i hocc
      unfold rfindSub at h
      cases hr : rfindSub pat rest with
      | some j =>
        rw [hr] at h
        cases h
      | none =>
        rw [hr] at h
        cases hpre : pat.isPrefixOf (c :: rest) with
        | true => rw [hpre] at h; cases h
        | false =>
          cases i with
          | zero =>
            unfold occursAt at hocc
            rw [List.drop_zero, hpre] at hocc
            cases hocc
          | succ j =>
            exact (ih.1 hr) j ((occursAt_succ_cons pat c rest j).mp hocc)
    · intro i h
      unfold rfindSub at h
      cases hr : rfindSub pat rest with
      | some j =>
        rw [hr] at h
        injection h with h
        subst h
        obtain ⟨hocc, hmax⟩ := ih.2 j hr
        constructor
        · exact (occursAt_succ_cons pat c rest j).mpr hocc
        · intro k hk
          cases k with
          | zero => exact Nat.zero_le _
          | succ m =>
            have hm : m ≤ j :=
              hmax m ((occursAt_succ_cons pat c rest m).mp hk)
            omega
      | none =>
        rw [hr] at h
        cases hpre : pat.isPrefixOf (c :: rest) with
        | false => rw [hpre] at h; cases h
        | true =>
          rw [hpre] at h
          injection h with h
          subst h
          constructor
          · unfold occursAt
            rwa [List.drop_zero]
          · intro k hk
            cases k with
            | zero => exact Nat.le_refl 0
            | succ m =>
              exact absurd ((occursAt_succ_cons pat c rest m).mp hk)
                ((ih.1 hr) m)

lemma occursAt_lt_length (pat l : List Char) (j : Nat) (hpat : pat ≠ [])
    (h : occursAt pat l j) : j < l.length := by
  unfold occursAt at h
  have hlen := (List.isPrefixOf_iff_prefix.mp h).length_le
  rw [List.length_drop] at hlen
  have hp : 1 ≤ pat.length := List.length_pos.mpr hpat
  omega

/-- C7, counterexample.  The line `"Alice: hi"` contains no `"] "`
delimiter (and no bracketed prefix at all), yet it is not dropped:
`rfind` returns `-1`, extraction falls back to the line minus its first
character (`"lice: hi"`), and `process_line` emits a Local event with
speaker `"lice"` and timestamp `"h"`. -/
theorem extract_message_counterexample :
    rfindSub (str "] ") (str "Alice: hi") = none ∧
    (process_line ⟨[], true⟩ (str "Alice: hi")).emissions ≠ [] ∧
    process_line ⟨[], true⟩ (str "Alice: hi") =
      ⟨[BusMsg.logLine (str "hi") (str "h") [] (some (str "lice")) .Local],
        0, false⟩ := by
  decide

/-- C7, amended.  When `"] "` occurs in the line, `extract_message`
returns exactly the trimmed content after its last occurrence; when it
does not occur, `extract_message` returns the trimmed line minus its
first character (`rfind` yields `-1` and `-1 + 2 = 1`), and the line is
dropped only if that fallback body lacks a `:`; no error is surfaced in
either case. -/
theorem extract_message_spec :
    (∀ (l : List Char) (i : Nat), occursAt (str "] ") l i →
      (∀ j, occursAt (str "] ") l j → j ≤ i) →
      extract_message l = pyStrip (l.drop (i + 2)))
  ∧ (∀ l : List Char, (∀ i, ¬ occursAt (str "] ") l i) →
      extract_message l = pyStrip (l.drop 1)) := by
  have hpat : (str "] ") ≠ ([] : List Char) := by decide
  constructor
  · intro l i hocc hmax
    cases hr : rfindSub (str "] ") l with
    | none => exact absurd hocc ((rfindSub_spec _ hpat l).1 hr i)
    | some k =>
      obtain ⟨hk, hkmax⟩ := (rfindSub_spec _ hpat l).2 k hr
      have hik : i = k := le_antisymm (hkmax i hocc) (hmax k hk)
      subst hik
      unfold extract_message pyRfindI
      rw [hr]
      have ht : ((i : Int) + 2).toNat = i + 2 := by omega
      rw [ht]
  · intro l hno
    cases hr : rfindSub (str "] ") l with
    | some k => exact absurd ((rfindSub_spec _ hpat l).2 k hr).1 (hno k)
    | none =>
      unfold extract_message pyRfindI
      rw [hr]
      norm_num

/-- Witness for `extract_message_spec`: a line with the delimiter at
position 1 and a line with no delimiter. -/
theorem extract_message_spec_witness :
    extract_message (str "a] b") = pyStrip ((str "a] b").drop 3) ∧
    extract_message (str "abc") = pyStrip ((str "abc").drop 1) := by
  constructor
  · refine extract_message_spec.1 _ 1 (by decide) ?_
    intro j hj
    have hlt := occursAt_lt_length _ _ j (by decide) hj
    have h4 : j < 4 := hlt
    interval_cases j <;> revert hj <;> decide
  · refine extract_message_spec.2 _ ?_
    intro i hi
    have hlt := occursAt_lt_length _ _ i (by decide) hi
    have h3 : i < 3 := hlt
    interval_cases i <;> revert hi <;> decide

/-! ## The end-to-end fixture -/

lemma extract_timestamp_length_le (l : List Char) :
    (extract_timestamp l).length ≤ 5 := by
  unfold extract_timestamp
  rw [pySlice, List.length_drop, List.length_take]
  have h5 : pyIdx (pySlice l ((pyFindI (str " ") l + 1).toNat : Nat)
      (pyFindFromI (str " ") l (pyFindI (str " ") l + 1).toNat)).length 5 ≤ 5 := by
    rw [pyIdx]
    norm_num
  omega

/-- C8, counterexample.  Feeding the fixture line
`"00:01:02 123 [INFO Client 456] # Global: ##hello"` through
extraction and classification yields timestamp `"123"` (the token after
the FIRST space is `"123"`, since this fixture lacks the log's leading
date token) and content `"##hello"` (content is never marker-stripped) —
not `"00:01"` and `"hello"`. -/
theorem fixture_counterexample :
    extract_timestamp (str "00:01:02 123 [INFO Client 456] # Global: ##hello") =
      str "123" ∧
    str "123" ≠ str "00:01" ∧
    (parse_message (extract_message
        (str "00:01:02 123 [INFO Client 456] # Global: ##hello"))).map
      ChatEvent.content = some (str "##hello") ∧
    some (str "##hello") ≠ some (str "hello") ∧
    (parse_message (extract_message
        (str "00:01:02 123 [INFO Client 456] # Global: ##hello"))).map
      ChatEvent.category = some .Global := by
  decide

/-- C8, amended.  The fixture line as written yields timestamp `"123"`,
category Global and content `"##hello"`; a line carrying the log's full
prefix (date, then clock time as the token after the first space) yields
timestamp `"00:01"` (the token truncated to 5 characters), category
Global and content `"hello"`; and the extracted timestamp never exceeds
5 characters. -/
theorem fixture_pipeline :
    extract_timestamp (str "00:01:02 123 [INFO Client 456] # Global: ##hello") =
      str "123" ∧
    parse_message (extract_message
        (str "00:01:02 123 [INFO Client 456] # Global: ##hello")) =
      some ⟨str "#", some (str "Global"), str "##hello", .Global⟩ ∧
    extract_timestamp
        (str "2024/12/25 00:01:02 462 [INFO Client 456] # Global: hello") =
      str "00:01" ∧
    parse_message (extract_message
        (str "2024/12/25 00:01:02 462 [INFO Client 456] # Global: hello")) =
      some ⟨str "#", some (str "Global"), str "hello", .Global⟩ ∧
    ∀ l : List Char, (extract_timestamp l).length ≤ 5 :=
  ⟨by decide, by decide, by decide, by decide, extract_timestamp_length_le⟩

/-! ## The notification sound -/

/-- C9, counterexample.  The invocation the code hands to the player at
configured volume 50 differs from the one the specification mandates:
`playsound(self.notify_path)` is called with the path alone, with no
volume value mapped or clamped. -/
theorem volume_counterexample :
    play_notify true (str "notify.wav") ≠
      play_notify_specced true (str "notify.wav") 50 100 := by
  decide

/-- C9, amended.  When the notification side effect fires, the sound file
is played via the external player with the path only: the invocation
carries no volume value, and no volume mapping or clamping exists in the
code. -/
theorem play_notify_no_volume :
    ∀ (fe : Bool) (p : List Char) (inv : SoundInvocation),
      play_notify fe p = some inv →
      inv.path = p ∧ inv.volume = none ∧ fe = true := by
  intro fe p inv h
  cases fe with
  | false => cases h
  | true =>
    unfold play_notify at h
    rw [if_pos rfl] at h
    injection h with h
    subst h
    exact ⟨rfl, rfl, rfl⟩

/-- Witness for `play_notify_no_volume` on a concrete invocation. -/
theorem play_notify_no_volume_witness :
    (⟨str "notify.wav", none⟩ : SoundInvocation).path = str "notify.wav" ∧
    (⟨str "notify.wav", none⟩ : SoundInvocation).volume = none ∧
    true = true :=
  play_notify_no_volume true (str "notify.wav") ⟨str "notify.wav", none⟩
    (by decide)

/-! ## Speaker extraction for the marker categories -/

lemma trimR_cons (c : Char) (l : List Char) :
    trimR (c :: l) =
      if (trimR l).isEmpty && pyIsSpace c then [] else c :: trimR l := rfl

lemma splitFirst_cons (c : Char) (l : List Char) (sep : Char) :
    splitFirst (c :: l) sep =
      if c = sep then ([], l)
      else ((c :: (splitFirst l sep).1), (splitFirst l sep).2) := rfl

lemma trimR_cons_nonspace (c : Char) (l : List Char)
    (h : pyIsSpace c = false) : trimR (c :: l) = c :: trimR l := by
  rw [trimR_cons, h, Bool.and_false, if_neg (by simp)]

lemma trimR_cases (c : Char) (l : List Char) :
    trimR (c :: l) = [] ∨ trimR (c :: l) = c :: trimR l := by
  rw [trimR_cons]
  split_ifs with h
  · exact Or.inl rfl
  · exact Or.inr rfl

lemma trimR_append_nonspace (a b : List Char)
    (h : ∀ c ∈ a, pyIsSpace c = false) : trimR (a ++ b) = a ++ trimR b := by
  induction a with
  | nil => simp
  | cons c t ih =>
    rw [List.cons_append,
      trimR_cons_nonspace c (t ++ b) (h c (List.mem_cons_self c t)),
      ih (fun x hx => h x (List.mem_cons_of_mem c hx)), List.cons_append]

lemma trimR_eq_nil_all_space (b : List Char) (h : trimR b = []) :
    ∀ c ∈ b, pyIsSpace c = true := by
  induction b with
  | nil => simp
  | cons c t ih =>
    rw [trimR_cons] at h
    split_ifs at h with hcond
    · simp only [Bool.and_eq_true, List.isEmpty_iff] at hcond
      intro x hx
      rcases List.mem_cons.mp hx with hx | hx
      · subst hx
        exact hcond.2
      · exact ih hcond.1 x hx

lemma dropWhile_append_of_all (P : Char → Bool) (a x : List Char)
    (h : ∀ c ∈ a, P c = true) :
    (a ++ x).dropWhile P = x.dropWhile P := by
  induction a with
  | nil => simp
  | cons c t ih =>
    rw [List.cons_append, List.dropWhile_cons,
      if_pos (h c (List.mem_cons_self c t))]
    exact ih (fun y hy => h y (List.mem_cons_of_mem c hy))

lemma dropWhile_head_false (P : Char → Bool) (l : List Char) (c : Char)
    (t : List Char) (h : l.dropWhile P = c :: t) : P c = false := by
  induction l with
  | nil => cases h
  | cons d rest ih =>
    rw [List.dropWhile_cons] at h
    split_ifs at h with hd
    · exact ih h
    · rw [List.cons.injEq] at h
      rw [← h.1]
      exact Bool.eq_false_iff.mpr hd

lemma trimL_trimR_comm (l : List Char) : trimL (trimR l) = trimR (trimL l) := by
  induction l with
  | nil => rfl
  | cons c t ih =>
    by_cases hc : pyIsSpace c = true
    · have hL : trimL (c :: t) = trimL t := by
        unfold trimL
        rw [List.dropWhile_cons, if_pos hc]
      rcases trimR_cases c t with h | h
      · have ht : trimR t = [] := by
          rw [trimR_cons] at h
          split_ifs at h with hcond
          · simp only [Bool.and_eq_true, List.isEmpty_iff] at hcond
            exact hcond.1
        rw [h, hL, ← ih, ht]
      · rw [h, hL, ← ih]
        unfold trimL
        rw [List.dropWhile_cons, if_pos hc]
    · have hc2 : pyIsSpace c = false := Bool.eq_false_iff.mpr hc
      have hL : trimL (c :: t) = c :: t := by
        unfold trimL
        rw [List.dropWhile_cons, if_neg (by rw [hc2]; simp)]
      rw [hL, trimR_cons_nonspace c t hc2]
      show trimL (c :: trimR t) = c :: trimR t
      unfold trimL
      rw [List.dropWhile_cons, if_neg (by rw [hc2]; simp)]

lemma trimR_trimR (l : List Char) : trimR (trimR l) = trimR l := by
  induction l with
  | nil => rfl
  | cons c t ih =>
    rcases trimR_cases c t with h | h
    · rw [h]
      rfl
    · rw [h]
      by_cases hc : pyIsSpace c = true
      · have ht : trimR t ≠ [] := by
          intro hnil
          rw [trimR_cons, hnil] at h
          simp [hc] at h
        rw [trimR_cons, ih,
          if_neg (by simp only [Bool.and_eq_true, List.isEmpty_iff]; tauto)]
      · rw [trimR_cons_nonspace c (trimR t) (Bool.eq_false_iff.mpr hc), ih]

lemma trimL_trimL (l : List Char) : trimL (trimL l) = trimL l := by
  unfold trimL
  cases hd : l.dropWhile pyIsSpace with
  | nil => rfl
  | cons c t =>
    rw [List.dropWhile_cons, if_neg]
    rw [dropWhile_head_false pyIsSpace l c t hd]
    simp

lemma pyStrip_pyStrip (l : List Char) : pyStrip (pyStrip l) = pyStrip l := by
  unfold pyStrip
  rw [trimL_trimR_comm (trimL l), trimL_trimL, trimR_trimR]

lemma strip_dropWhile_core (P : Char → Bool)
    (hP : ∀ x, P x = true → pyIsSpace x = false) (a : Char) (A B : List Char)
    (hall : ∀ x ∈ (a :: A), P x = true)
    (hBhead : ∀ d t, B = d :: t → P d = false) :
    pyStrip ((pyStrip ((a :: A) ++ B)).dropWhile P) =
      pyStrip (((a :: A) ++ B).dropWhile P) := by
  have haz : pyIsSpace a = false := hP a (hall a (List.mem_cons_self a A))
  have hAs : ∀ x ∈ (a :: A), pyIsSpace x = false :=
    fun x hx => hP x (hall x hx)
  have hL : trimL ((a :: A) ++ B) = (a :: A) ++ B := by
    show trimL (a :: (A ++ B)) = a :: (A ++ B)
    unfold trimL
    rw [List.dropWhile_cons, if_neg (by rw [haz]; simp)]
  have hstrip : pyStrip ((a :: A) ++ B) = (a :: A) ++ trimR B := by
    unfold pyStrip
    rw [hL]
    exact trimR_append_nonspace _ _ hAs
  have hBdrop : B.dropWhile P = B := by
    cases hB2 : B with
    | nil => rfl
    | cons d t => rw [List.dropWhile_cons, if_neg (by rw [hBhead d t hB2]; simp)]
  have hABdrop : ((a :: A) ++ B).dropWhile P = B := by
    rw [dropWhile_append_of_all P _ _ hall, hBdrop]
  rw [hstrip, dropWhile_append_of_all P _ _ hall, hABdrop]
  cases hb : trimR B with
  | nil =>
    rw [List.dropWhile_nil]
    have hLb : trimL B = [] := by
      unfold trimL
      rw [List.dropWhile_eq_nil_iff]
      exact trimR_eq_nil_all_space B hb
    unfold pyStrip
    rw [hLb]
    rfl
  | cons d t =>
    have hPd : P d = false := by
      cases hB2 : B with
      | nil =>
        rw [hB2] at hb
        cases hb
      | cons e s =>
        rw [hB2] at hb
        rcases trimR_cases e s with h2 | h2
        · rw [h2] at hb
          cases hb
        · rw [h2] at hb
          injection hb with hb1 _
          rw [← hb1]
          exact hBhead e s hB2
    rw [List.dropWhile_cons, if_neg (by rw [hPd]; simp), ← hb]
    unfold pyStrip
    rw [trimL_trimR_comm, trimR_trimR]

lemma strip_dropWhile_strip (P : Char → Bool)
    (hP : ∀ x, P x = true → pyIsSpace x = false) (c : Char) (rest : List Char)
    (hc : P c = true) :
    pyStrip ((pyStrip (c :: rest)).dropWhile P) =
      pyStrip ((c :: rest).dropWhile P) := by
  have htake : (c :: rest).takeWhile P = c :: rest.takeWhile P := by
    rw [List.takeWhile_cons, if_pos hc]
  have hsplit : (c :: rest.takeWhile P) ++ (c :: rest).dropWhile P = c :: rest := by
    rw [← htake]
    exact List.takeWhile_append_dropWhile P (c :: rest)
  have hall : ∀ x ∈ (c :: rest.takeWhile P), P x = true := by
    intro x hx
    rcases List.mem_cons.mp hx with hx | hx
    · subst hx
      exact hc
    · exact List.mem_takeWhile_imp hx
  have hBhead : ∀ d t, (c :: rest).dropWhile P = d :: t → P d = false :=
    fun d t hd => dropWhile_head_false P (c :: rest) d t hd
  conv_lhs => rw [← hsplit]
  conv_rhs => rw [← hsplit]
  exact strip_dropWhile_core P hP c (rest.takeWhile P) ((c :: rest).dropWhile P)
    hall hBhead

lemma splitFirst_head (c : Char) (l : List Char) (h : ¬ c = ':') :
    (splitFirst (c :: l) ':').1 = c :: (splitFirst l ':').1 := by
  rw [splitFirst_cons, if_neg h]

lemma dropWhile_contains_nil (l : List Char) :
    l.dropWhile (fun c => ([] : List Char).contains c) = l := by
  cases l with
  | nil => rfl
  | cons c t =>
    rw [List.dropWhile_cons, if_neg (by simp)]

lemma marker_branch (m : Char) (hm : pyIsSpace m = false) (p1 : List Char)
    (hp1 : p1.head? = some m) :
    pyStrip (pyLstrip [m] (pyStrip p1)) = speakerPerSpec [m] p1 := by
  cases p1 with
  | nil => cases hp1
  | cons c t =>
    rw [List.head?_cons] at hp1
    injection hp1 with hp1
    subst hp1
    unfold pyLstrip speakerPerSpec
    refine strip_dropWhile_strip _ ?_ c t ?_
    · intro x h
      have hxm : x = c := by simpa using h
      rw [hxm]
      exact hm
    · simp

/-- C10.  For every body classified Global, Trade, Guild, Party or Local,
the returned speaker equals the raw speaker part (the part of the body
before the first colon) with the leading run of characters equal to the
detected marker stripped from the front and then whitespace-trimmed; for
Local (empty marker) the entire speaker part is kept with only a
whitespace trim. -/
theorem speaker_extraction :
    ∀ (message : List Char) (ev : ChatEvent),
      parse_message message = some ev →
      (ev.category = .Global ∨ ev.category = .Trade ∨ ev.category = .Guild ∨
        ev.category = .Party ∨ ev.category = .Local) →
      ev.username = some (speakerPerSpec ev.channel (splitFirst message ':').1) := by
  intro message ev hp hcat
  unfold parse_message at hp
  split at hp
  · unfold detectChannel at hp
    split_ifs at hp with h1 h2 h3 h4 h5 h6 h7 h8 h9 <;>
      injection hp with hp <;> subst hp <;> try simp at hcat
    · obtain ⟨tail, rfl⟩ := List.isPrefixOf_iff_prefix.mp h1
      refine congrArg some ?_
      rw [show str "#" = ['#'] from rfl]
      refine marker_branch '#' (by decide) _ ?_
      rw [show str "##" ++ tail = '#' :: '#' :: tail from rfl,
        splitFirst_head '#' ('#' :: tail) (by decide)]
      rfl
    · obtain ⟨tail, rfl⟩ := List.isPrefixOf_iff_prefix.mp h2
      refine congrArg some ?_
      rw [show str "$" = ['$'] from rfl]
      refine marker_branch '$' (by decide) _ ?_
      rw [show str "$$" ++ tail = '$' :: '$' :: tail from rfl,
        splitFirst_head '$' ('$' :: tail) (by decide)]
      rfl
    · obtain ⟨tail, rfl⟩ := List.isPrefixOf_iff_prefix.mp h3
      refine congrArg some ?_
      rw [show str "#" = ['#'] from rfl]
      refine marker_branch '#' (by decide) _ ?_
      rw [List.singleton_append, splitFirst_head '#' tail (by decide)]
      rfl
    · obtain ⟨tail, rfl⟩ := List.isPrefixOf_iff_prefix.mp h4
      refine congrArg some ?_
      rw [show str "$" = ['$'] from rfl]
      refine marker_branch '$' (by decide) _ ?_
      rw [List.singleton_append, splitFirst_head '$' tail (by decide)]
      rfl
    · obtain ⟨tail, rfl⟩ := List.isPrefixOf_iff_prefix.mp h5
      refine congrArg some ?_
      rw [show str "&" = ['&'] from rfl]
      refine marker_branch '&' (by decide) _ ?_
      rw [List.singleton_append, splitFirst_head '&' tail (by decide)]
      rfl
    · obtain ⟨tail, rfl⟩ := List.isPrefixOf_iff_prefix.mp h6
      refine congrArg some ?_
      rw [show str "%" = ['%'] from rfl]
      refine marker_branch '%' (by decide) _ ?_
      rw [List.singleton_append, splitFirst_head '%' tail (by decide)]
      rfl
    · refine congrArg some ?_
      show pyStrip (pyLstrip [] (pyStrip _)) = _
      unfold pyLstrip speakerPerSpec
      rw [dropWhile_contains_nil, dropWhile_contains_nil]
      exact pyStrip_pyStrip _
  · cases hp

/-- Witness for `speaker_extraction` on the body `"##Alice: hi"`: the
doubled marker collapses to `"#"` and the speaker is the part before the
colon with the leading run of marker characters stripped and trimmed. -/
theorem speaker_extraction_witness :
    (⟨str "#", some (str "Alice"), str "hi", .Global⟩ : ChatEvent).username =
      some (speakerPerSpec (str "#") (splitFirst (str "##Alice: hi") ':').1) :=
  speaker_extraction (str "##Alice: hi") _ (by decide) (Or.inl rfl)

/-! ## Emission ordering under the worker pool -/

/-- Two lines appended to the log in this order, as submitted by
`monitor_file` to the pool. -/
def linesEx : List (List Char) :=
  [str "a] #Alice: one", str "a] #Bob: two"]

/-- The configuration used in the ordering traces: nobody ignored,
notifications on. -/
def cfgEx : Config := ⟨[], true⟩

/-- C1, counterexample.  The claim that the consumer always observes
events in file order fails: `monitor_file` submits each line to a
`ThreadPoolExecutor(max_workers=4)` and nothing re-serializes emissions,
so a schedule is reachable in which the second line's task completes and
emits before the first line's — the finished order `[task 1, task 0]` is
reachable and is not sorted by file position. -/
theorem ordering_counterexample :
    ¬ (∀ s : ExecState, Reachable 4 linesEx s →
        List.Pairwise (· ≤ ·) (s.finished.map Prod.fst)) := by
  intro hclaim
  have r : Reachable 4 linesEx
      ⟨[], [], [(1, str "a] #Bob: two"), (0, str "a] #Alice: one")]⟩ :=
    .head (ExecStep.start _ ⟨[(1, str "a] #Bob: two")],
        [(0, str "a] #Alice: one")], []⟩ (0, str "a] #Alice: one")
        [(1, str "a] #Bob: two")] (by decide) (by decide) (by decide))
      (.head (ExecStep.start _ ⟨[], [(0, str "a] #Alice: one"),
          (1, str "a] #Bob: two")], []⟩ (1, str "a] #Bob: two") []
          (by decide) (by decide) (by decide))
        (.head (ExecStep.finish _ ⟨[], [(0, str "a] #Alice: one")],
            [(1, str "a] #Bob: two")]⟩ (1, str "a] #Bob: two")
            (by decide) (by decide))
          (.head (ExecStep.finish _ ⟨[], [], [(1, str "a] #Bob: two"),
              (0, str "a] #Alice: one")]⟩ (0, str "a] #Alice: one")
              (by decide) (by decide)) .refl)))
  have hsorted := hclaim _ r
  have h10 := (List.pairwise_cons.mp hsorted).1 0 (by simp)
  omega

/-- C1, amended.  Emission order into the bus is NOT re-serialized to
file order: with the four-worker pool, both the inverted order (line 2's
event observed strictly before line 1's) and the file order are reachable
consumer observations of the same two appended lines — the scheduler, not
the file position, decides what the consumer sees. -/
theorem ordering_not_serialized :
    (∃ s : ExecState, Reachable 4 linesEx s ∧ s.waiting = [] ∧
      s.running = [] ∧
      observed cfgEx s =
        [BusMsg.logLine (str "two") (str "#Bob:") (str "#")
            (some (str "Bob")) .Global,
         BusMsg.logLine (str "one") (str "#Alic") (str "#")
            (some (str "Alice")) .Global]) ∧
    (∃ s : ExecState, Reachable 4 linesEx s ∧ s.waiting = [] ∧
      s.running = [] ∧
      observed cfgEx s =
        [BusMsg.logLine (str "one") (str "#Alic") (str "#")
            (some (str "Alice")) .Global,
         BusMsg.logLine (str "two") (str "#Bob:") (str "#")
            (some (str "Bob")) .Global]) := by
  constructor
  · refine ⟨⟨[], [], [(1, str "a] #Bob: two"), (0, str "a] #Alice: one")]⟩,
      ?_, rfl, rfl, by decide⟩
    exact
      .head (ExecStep.start _ ⟨[(1, str "a] #Bob: two")],
          [(0, str "a] #Alice: one")], []⟩ (0, str "a] #Alice: one")
          [(1, str "a] #Bob: two")] (by decide) (by decide) (by decide))
        (.head (ExecStep.start _ ⟨[], [(0, str "a] #Alice: one"),
            (1, str "a] #Bob: two")], []⟩ (1, str "a] #Bob: two") []
            (by decide) (by decide) (by decide))
          (.head (ExecStep.finish _ ⟨[], [(0, str "a] #Alice: one")],
              [(1, str "a] #Bob: two")]⟩ (1, str "a] #Bob: two")
              (by decide) (by decide))
            (.head (ExecStep.finish _ ⟨[], [], [(1, str "a] #Bob: two"),
                (0, str "a] #Alice: one")]⟩ (0, str "a] #Alice: one")
                (by decide) (by decide)) .refl)))
  · refine ⟨⟨[], [], [(0, str "a] #Alice: one"), (1, str "a] #Bob: two")]⟩,
      ?_, rfl, rfl, by decide⟩
    exact
      .head (ExecStep.start _ ⟨[(1, str "a] #Bob: two")],
          [(0, str "a] #Alice: one")], []⟩ (0, str "a] #Alice: one")
          [(1, str "a] #Bob: two")] (by decide) (by decide) (by decide))
        (.head (ExecStep.finish _ ⟨[(1, str "a] #Bob: two")], [],
            [(0, str "a] #Alice: one")]⟩ (0, str "a] #Alice: one")
            (by decide) (by decide))
          (.head (ExecStep.start _ ⟨[], [(1, str "a] #Bob: two")],
              [(0, str "a] #Alice: one")]⟩ (1, str "a] #Bob: two") []
              (by decide) (by decide) (by decide))
            (.head (ExecStep.finish _ ⟨[], [], [(0, str "a] #Alice: one"),
                (1, str "a] #Bob: two")]⟩ (1, str "a] #Bob: two")
                (by decide) (by decide)) .refl)))

end ChatNotifier
